import Mathlib

/-!
Verification development for the geomdl B-spline evaluation and refinement core
(`src/geomdl/BSpline.py`).

Modelling conventions:
* Scalars are rationals (`ℚ`): the Python code computes with IEEE floats, and every
  arithmetic expression of the algorithms is rational, so `ℚ` is the exact-arithmetic
  semantics of the algorithms; the spec's `1e-9` tolerances become exact equality.
* Points are lists of rationals (`Pt`), matching the `[x, y, z]` coordinate lists of
  the source; `zip`-based Python list comprehensions become `List.zipWith` (which
  truncates to the shorter list exactly like `zip`).
* Python exceptions are modelled with `Except`; `warnings.warn` calls are modelled
  by returning a list of warning values alongside the new state.
* Division by zero: Lean's `ℚ` division is total with `x / 0 = 0`, while Python
  raises `ZeroDivisionError`.  Wherever a theorem turns on a zero denominator, the
  theorem also exhibits the vanishing denominator itself, so the statement is
  meaningful under both semantics.
* The module `geomdl/utilities.py` is not part of the sources provided (only its
  callers in `BSpline.py` are), so its functions are modelled from the spec
  (sections 4.1 and 4.2); each such definition is marked `Modelled from the spec`.
* Indices are natural numbers, so index expressions like `span - degree + i`
  truncate at zero where Python would wrap around with a negative index; every
  theorem below only exercises states where the indices are in range.
* The insertion count `r` is a `ℕ`, which models the sources' up-front
  `isinstance(r, int) and r >= 0` requirement (a violation raises in Python and is
  simply untypable here).
-/

namespace Geomdl

/-- A control point or evaluated point: a list of rational coordinates. -/
abbrev Pt := List ℚ

/-- Modelled from the spec (§4.1 `find_span`): linear scan returning the index `k`
with `values[k] ≤ u < values[k+1]`, where `u = 1.0` maps to the span ending at the
last non-trivial knot.  The scan advances while `span < n_ctrlpts` and
`knots[span] ≤ u`, and returns `span - 1`ℕ (the source repository's utilities module
implements exactly this linear scan). -/
def find_span (_degree : ℕ) (knot_vector : List ℚ) (num_ctrlpts : ℕ) (u : ℚ) : ℕ :=
  ((List.range num_ctrlpts).takeWhile (fun i => decide (knot_vector.getD i 0 ≤ u))).length - 1

/-- Modelled from the spec (§4.1 `find_multiplicity`): number of occurrences of `u`
in the knot vector (exact equality; the float tolerance of the source is exact in ℚ). -/
def find_multiplicity (u : ℚ) (knot_vector : List ℚ) : ℕ :=
  knot_vector.countP (fun x => decide (x = u))

/-- The `left[j] = u - U[span + 1 - j]` auxiliary of the Cox–de Boor recurrence. -/
def leftVal (U : List ℚ) (span : ℕ) (u : ℚ) (j : ℕ) : ℚ :=
  u - U.getD (span + 1 - j) 0

/-- The `right[j] = U[span + j] - u` auxiliary of the Cox–de Boor recurrence. -/
def rightVal (U : List ℚ) (span : ℕ) (u : ℚ) (j : ℕ) : ℚ :=
  U.getD (span + j) 0 - u

/-- Inner loop of NURBS-book Algorithm A2.2 at level `j`: transforms the degree
`j-1` basis values (the input list, positions `r`, `r+1`, ...) into the degree `j`
values, threading the `saved` accumulator and appending it as the last value. -/
def basisInner (U : List ℚ) (span : ℕ) (u : ℚ) (j : ℕ) : List ℚ → ℕ → ℚ → List ℚ
  | [], _, saved => [saved]
  | n :: rest, r, saved =>
    let temp := n / (rightVal U span u (r + 1) + leftVal U span u (j - r))
    (saved + rightVal U span u (r + 1) * temp) ::
      basisInner U span u j rest (r + 1) (leftVal U span u (j - r) * temp)

/-- Degree-by-degree table of Algorithm A2.2: `basisFunsAux U span u j` is the list
of the `j+1` nonzero basis values of degree `j` at `u`. -/
def basisFunsAux (U : List ℚ) (span : ℕ) (u : ℚ) : ℕ → List ℚ
  | 0 => [1]
  | j + 1 => basisInner U span u (j + 1) (basisFunsAux U span u j) 0 0

/-- Modelled from the spec (§4.2 `values`): Cox–de Boor recurrence (Algorithm A2.2)
producing the `degree+1` nonzero basis values at `u`, `values[i]` pairing with
control point `span - degree + i`. -/
def basis_functions (degree : ℕ) (knot_vector : List ℚ) (span : ℕ) (u : ℚ) : List ℚ :=
  basisFunsAux knot_vector span u degree

/-- Modelled from the spec (§4.2 `all_basis`): full triangular table of all-degree
basis values; row `j`, column `i` holds the `j`-th nonzero basis value of degree `i`
(entries with `j > i` are never read by the callers and are returned as `0`,
standing for the source's uninitialised `None`). -/
def basis_functions_all (degree : ℕ) (knot_vector : List ℚ) (span : ℕ) (u : ℚ) :
    List (List ℚ) :=
  (List.range (degree + 1)).map (fun j =>
    (List.range (degree + 1)).map (fun i =>
      if j ≤ i then (basisFunsAux knot_vector span u i).getD j 0 else 0))

/-- Entry `ndu[a][b]` of the triangular table of Algorithm A2.3.  The upper
triangle (`a ≤ b`) holds the degree-`b` basis values (the same recurrence as
Algorithm A2.2, so it is expressed through `basisFunsAux`); the lower triangle
holds the saved denominators `right[b+1] + left[a-b]` exactly as the source
stores them. -/
def nduF (U : List ℚ) (span : ℕ) (u : ℚ) (a b : ℕ) : ℚ :=
  if a ≤ b then (basisFunsAux U span u b).getD a 0
  else rightVal U span u (b + 1) + leftVal U span u (a - b)

/-- One level `k ≥ 1` of the derivative coefficient computation of Algorithm A2.3
for function index `r`: from the two alternating rows (`aOld` = the row about to be
overwritten, `aCur` = the previous level's row) produce the new row and the
accumulated (unscaled) derivative value `d`.  Entries of the new row outside the
written window keep the stale `aOld` values, exactly like the source's alternating
two-row array. -/
def aNext (p : ℕ) (U : List ℚ) (span : ℕ) (u : ℚ) (r k : ℕ)
    (aOld aCur : ℕ → ℚ) : (ℕ → ℚ) × ℚ :=
  let pk := p - k
  let j1 : ℕ := if (-1 : ℤ) ≤ (r : ℤ) - (k : ℤ) then 1 else k - r
  let j2 : ℕ := if (r : ℤ) - 1 ≤ (pk : ℤ) then k - 1 else p - r
  let v0 := aCur 0 / nduF U span u (pk + 1) (r - k)
  let vj : ℕ → ℚ := fun j => (aCur j - aCur (j - 1)) / nduF U span u (pk + 1) (r + j - k)
  let vk := -(aCur (k - 1)) / nduF U span u (pk + 1) r
  let a2 : ℕ → ℚ := fun j =>
    if j = 0 ∧ k ≤ r then v0
    else if j1 ≤ j ∧ j ≤ j2 then vj j
    else if j = k ∧ r ≤ pk then vk
    else aOld j
  let d :=
    (if k ≤ r then v0 * nduF U span u (r - k) pk else 0) +
    (List.range' j1 (j2 + 1 - j1)).foldl
      (fun acc j => acc + vj j * nduF U span u (r + j - k) pk) 0 +
    (if r ≤ pk then vk * nduF U span u r pk else 0)
  (a2, d)

/-- The pair of alternating coefficient rows of Algorithm A2.3 after `k` levels
(for function index `r`); initially row `a[0]` has only `a[0][0] = 1` written. -/
def aState (p : ℕ) (U : List ℚ) (span : ℕ) (u : ℚ) (r : ℕ) :
    ℕ → ((ℕ → ℚ) × (ℕ → ℚ))
  | 0 => (fun _ => 0, fun j => if j = 0 then 1 else 0)
  | k + 1 =>
    let s := aState p U span u r k
    (s.2, (aNext p U span u r (k + 1) s.1 s.2).1)

/-- The scaling factor `p · (p-1) ⋯ (p-k+1)` applied to the order-`k` row at the
end of Algorithm A2.3. -/
def dersFactor (p k : ℕ) : ℚ :=
  (List.range k).foldl (fun acc t => acc * ((p : ℚ) - (t : ℚ))) 1

/-- Modelled from the spec (§4.2 `derivatives`): the standard triangular-table
derivative algorithm (Algorithm A2.3), computing all nonzero basis values and their
derivatives up to `order` (the callers clamp `order` to the degree); row 0 is the
Algorithm A2.2 value row. -/
def basis_functions_ders (degree : ℕ) (knot_vector : List ℚ) (span : ℕ) (u : ℚ)
    (order : ℕ) : List (List ℚ) :=
  (List.range (min degree order + 1)).map (fun k =>
    if k = 0 then
      (List.range (degree + 1)).map (fun j =>
        (basisFunsAux knot_vector span u degree).getD j 0)
    else
      (List.range (degree + 1)).map (fun r =>
        dersFactor degree k *
          (aNext degree knot_vector span u r k
            (aState degree knot_vector span u r (k - 1)).1
            (aState degree knot_vector span u r (k - 1)).2).2))

/-- Modelled from the spec (§4.3 `sample` and §8): the regular parameter grid
`0, δ, 2δ, …` with `⌊1/δ⌋ + 1` steps. -/
def frange (delta : ℚ) : List ℚ :=
  (List.range ((⌊(1 : ℚ) / delta⌋).toNat + 1)).map (fun i => (i : ℚ) * delta)

/-- Modelled from the spec (§7 parameter-domain errors): each supplied parameter
must lie in `[0, 1]`. -/
def check_uv (u : Option ℚ) (v : Option ℚ) : Bool :=
  (match u with | none => true | some x => decide (0 ≤ x ∧ x ≤ 1)) &&
  (match v with | none => true | some x => decide (0 ≤ x ∧ x ≤ 1))

/-- Python truthiness of an optional float argument: `None` and `0.0` are falsy. -/
def truthy : Option ℚ → Bool
  | none => false
  | some q => decide (q ≠ 0)

/-- Exceptions raised by the modelled methods. -/
inductive Err where
  | varsNotSet
  | paramRange
  | badCtrlptDim
  | tooFewCtrlpts
  | degreesNotSet
  | unboundLocalKU
deriving DecidableEq, Repr

/-- Values passed to `warnings.warn` by the modelled methods. -/
inductive Warn where
  | cannotInsert (r : ℕ)
  | cannotInsertU (r : ℕ)
  | cannotInsertV (r : ℕ)
deriving DecidableEq, Repr

/-- The data of `BSpline.Curve` (and `Curve2D`, which only overrides `dimension`):
degree, knot vector, control points, sampling step, cached curve points and point
dimension. -/
@[ext]
structure Curve where
  degree : ℕ := 0
  knotvector : List ℚ := []
  ctrlpts : List Pt := []
  delta : ℚ := 1/10
  curvepts : List Pt := []
  dimension : ℕ := 3
deriving DecidableEq, Repr

/-- `Curve._check_variables`: degree, control points and knot vector must be set. -/
def Curve.varsOk (c : Curve) : Bool :=
  c.degree != 0 && !c.ctrlpts.isEmpty && !c.knotvector.isEmpty

/-- Core of `Curve.curvept` (Algorithm A3.1): weighted sum of the `degree+1`
control points of the span window with the basis values. -/
def Curve.curvept_core (c : Curve) (u : ℚ) : Pt :=
  let span := find_span c.degree c.knotvector c.ctrlpts.length u
  let basis := basis_functions c.degree c.knotvector span u
  (List.range (c.degree + 1)).foldl
    (fun cpt i =>
      List.zipWith (fun a b => a + basis.getD i 0 * b) cpt
        (c.ctrlpts.getD (span - c.degree + i) []))
    (List.replicate c.dimension 0)

/-- `Curve.curvept` with its variable and parameter checks (the `get_ctrlpts`
diagnostic flag of the source only augments the return value and is omitted). -/
def Curve.curvept (c : Curve) (u : ℚ) : Except Err Pt :=
  if !c.varsOk then .error .varsNotSet
  else if !check_uv (some u) none then .error .paramRange
  else .ok (c.curvept_core u)

/-- The list of sampled curve points produced by `Curve.evaluate`. -/
def Curve.evaluateList (c : Curve) : List Pt :=
  (frange c.delta).map (fun u => c.curvept_core u)

/-- The derivative control points `PK[k][i]` of Algorithm A3.3
(`Curve.derivatives_ctrlpts`), as a recursive function of `(k, i)`:
`PK[k][i] = (p-k+1) · (PK[k-1][i+1] - PK[k-1][i]) / (U[r1+i+p+1] - U[r1+i+k])`. -/
def Curve.pkF (c : Curve) (r1 : ℕ) : ℕ → ℕ → Pt
  | 0, i => c.ctrlpts.getD (r1 + i) []
  | k + 1, i =>
    List.zipWith
      (fun e1 e2 =>
        ((c.degree : ℚ) - (k : ℚ)) * (e1 - e2) /
          (c.knotvector.getD (r1 + i + c.degree + 1) 0 -
            c.knotvector.getD (r1 + i + k + 1) 0))
      (Curve.pkF c r1 k (i + 1)) (Curve.pkF c r1 k i)

/-- `Curve.derivatives_ctrlpts` (Algorithm A3.3) as a table.  The source leaves the
entries with `i > (r2-r1) - k` uninitialised (`None`); here they are produced by the
same recurrence but are never read by the caller. -/
def Curve.derivatives_ctrlpts (c : Curve) (order r1 r2 : ℕ) : List (List Pt) :=
  (List.range (order + 1)).map (fun k =>
    (List.range (r2 - r1 + 1)).map (fun i => c.pkF r1 k i))

/-- `Curve.derivatives` (Algorithm A3.4): combine the all-degree basis table with
the derivative control points; rows above `degree` are zero vectors. -/
def Curve.derivatives (c : Curve) (u : ℚ) (order : ℕ) : Except Err (List Pt) :=
  if !c.varsOk then .error .varsNotSet
  else if !check_uv (some u) none then .error .paramRange
  else
    let du := min c.degree order
    let span := find_span c.degree c.knotvector c.ctrlpts.length u
    let bfuns := basis_functions_all c.degree c.knotvector span u
    let PK := c.derivatives_ctrlpts du (span - c.degree) span
    .ok ((List.range (order + 1)).map (fun k =>
      if k ≤ du then
        (List.range (c.degree - k + 1)).foldl
          (fun ck j =>
            List.zipWith
              (fun e d => e + (bfuns.getD j []).getD (c.degree - k) 0 * d) ck
              ((PK.getD k []).getD j []))
          (List.replicate c.dimension 0)
      else List.replicate c.dimension 0))

/-- `Curve.derivatives2` (Algorithm A3.2): apply the basis-derivative table
directly to the original control points; rows above `degree` are zero vectors. -/
def Curve.derivatives2 (c : Curve) (u : ℚ) (order : ℕ) : Except Err (List Pt) :=
  if !c.varsOk then .error .varsNotSet
  else if !(decide (0 ≤ u ∧ u ≤ 1)) then .error .paramRange
  else
    let du := min c.degree order
    let span := find_span c.degree c.knotvector c.ctrlpts.length u
    let bfunsders := basis_functions_ders c.degree c.knotvector span u du
    .ok ((List.range (order + 1)).map (fun k =>
      if k ≤ du then
        (List.range (c.degree + 1)).foldl
          (fun ck j =>
            List.zipWith
              (fun e b => e + (bfunsders.getD k []).getD j 0 * b) ck
              (c.ctrlpts.getD (span - c.degree + j) []))
          (List.replicate c.dimension 0)
      else List.replicate c.dimension 0))

/-!
Boehm knot insertion (Algorithm A5.1 / per-line part of A5.3).

The source's `Q[L] = R[0]` / `Q[k+r-j-s] = R[p-j-s]` assignments store *references*
to the working points `R[i]`, and the later passes mutate those points in place
(`R[i][:] = ...`).  Consequently every `Q` slot that references an `R` point holds,
at the end of the routine, that point's final contents.  The model below records
the assignments as symbolic slots in source order, runs the `R` passes as a pure
state iteration, and finally resolves every slot against the final `R` contents —
exactly the observable outcome of the Python reference semantics. -/

/-- A slot of the new control-point array: a directly copied point, a reference to
working point `R[i]`, or a never-written (`None`) entry. -/
inductive Slot where
  | val (pt : Pt)
  | rslot (i : ℕ)
  | unset
deriving DecidableEq, Repr

/-- Resolve a slot against the final contents of the working array `R`. -/
def Slot.resolve (Rfin : List Pt) : Slot → Pt
  | .val pt => pt
  | .rslot i => Rfin.getD i []
  | .unset => []

/-- One insertion pass `j` over the working array: for `i < p - j - s + 1`,
`R[i] ← α(i,j) · R[i+1] + (1 - α(i,j)) · R[i]` (the ascending loop reads `R[i+1]`
before that slot's own update, so the pass is a simultaneous update). -/
def boehmPass (alpha : ℕ → ℕ → ℚ) (p s j : ℕ) (R : List Pt) : List Pt :=
  R.mapIdx (fun i Ri =>
    if i < p - j - s + 1 then
      List.zipWith (fun e1 e2 => alpha i j * e2 + (1 - alpha i j) * e1) Ri
        (R.getD (i + 1) [])
    else Ri)

/-- The working array after all `r` passes, loaded from the points at indices
`loadK - p + i` (the v-direction branch of `Surface.insert_knot` loads from `k_u`
rather than its own span, hence the separate `loadK`). -/
def boehmR (alpha : ℕ → ℕ → ℚ) (p s r loadK : ℕ) (P : List Pt) : List Pt :=
  (List.range r).foldl (fun R jm1 => boehmPass alpha p s (jm1 + 1) R)
    ((List.range (p - s + 1)).map (fun i => P.getD (loadK - p + i) []))

/-- The slot array of the new control-point line, written in source order:
unchanged head (`i ≤ k - p`) and tail (`i ≥ k - s`, shifted by `r`), the per-pass
boundary assignments `Q[k-p+j] ← R[0]` and `Q[k+r-j-s] ← R[p-j-s]`, then the
remaining window `Q[i] ← R[i - (k-p+r)]`. -/
def boehmSlots (p s r k n0 : ℕ) (P : List Pt) : List Slot :=
  let Q0 : List Slot := List.replicate (n0 + r) .unset
  let Q1 := (List.range (k - p + 1)).foldl
    (fun Q i => Q.set i (.val (P.getD i []))) Q0
  let Q2 := (List.range' (k - s) (n0 - (k - s))).foldl
    (fun Q i => Q.set (i + r) (.val (P.getD i []))) Q1
  let Q3 := (List.range r).foldl
    (fun Q jm1 =>
      let j := jm1 + 1
      (Q.set (k - p + j) (.rslot 0)).set (k + r - j - s) (.rslot (p - j - s))) Q2
  let L := k - p + r
  (List.range' (L + 1) (k - s - (L + 1))).foldl
    (fun Q i => Q.set i (.rslot (i - L))) Q3

/-- The new control-point line produced by one Boehm insertion: slots resolved
against the final working array. -/
def boehmLine (alpha : ℕ → ℕ → ℚ) (p s r k loadK n0 : ℕ) (P : List Pt) : List Pt :=
  (boehmSlots p s r k n0 P).map (Slot.resolve (boehmR alpha p s r loadK P))

/-- `Curve.insert_knot` (Algorithm A5.1): validity checks, multiplicity-aware
rejection (a warning, not an exception), new knot vector by splicing, new control
points by the Boehm update, and re-evaluation of the cached points if present. -/
def Curve.insert_knot (c : Curve) (u : ℚ) (r : ℕ) : Except Err (Curve × List Warn) :=
  if !c.varsOk then .error .varsNotSet
  else if !check_uv (some u) none then .error .paramRange
  else
    let s := find_multiplicity u c.knotvector
    if (r : ℤ) > (c.degree : ℤ) - (s : ℤ) then .ok (c, [.cannotInsert r])
    else
      let k := find_span c.degree c.knotvector c.ctrlpts.length u
      let UQ := c.knotvector.take (k + 1) ++ List.replicate r u ++
        c.knotvector.drop (k + 1)
      let alpha : ℕ → ℕ → ℚ := fun i j =>
        (u - c.knotvector.getD (k - c.degree + j + i) 0) /
          (c.knotvector.getD (i + k + 1) 0 - c.knotvector.getD (k - c.degree + j + i) 0)
      let Q := boehmLine alpha c.degree s r k k c.ctrlpts.length c.ctrlpts
      let c1 := { c with knotvector := UQ, ctrlpts := Q }
      .ok (if c1.curvepts.isEmpty then c1 else { c1 with curvepts := c1.evaluateList }, [])

/-- The per-point loop of the `Curve.ctrlpts` setter: the source appends each
converted point and raises on the first point with more than `dimension`
coordinates (the `len(coord) < 0` half of the source's test is vacuous), leaving
the already-appended prefix in place. -/
def Curve.ctrlptsSetLoop (c : Curve) : List Pt → Curve × Option Err
  | [] => (c, none)
  | coord :: rest =>
    if c.dimension < coord.length then (c, some .badCtrlptDim)
    else Curve.ctrlptsSetLoop { c with ctrlpts := c.ctrlpts ++ [coord] } rest

/-- The `Curve.ctrlpts` property setter: the size check happens before any
mutation, after which the cached points and the stored control points are cleared
(`_reset_curve` / `_reset_ctrlpts`) and the per-point loop runs. -/
def Curve.ctrlpts_set (c : Curve) (value : List Pt) : Curve × Option Err :=
  if value.length < c.degree + 1 then (c, some .tooFewCtrlpts)
  else Curve.ctrlptsSetLoop { c with curvepts := [], ctrlpts := [] } value

/-- The data of `BSpline.Surface`: degrees, knot vectors, flattened control points
(v index varying fastest), the `[u][v]` grid, grid sizes, sampling step, cached
surface points and point dimension. -/
@[ext]
structure Surface where
  degree_u : ℕ := 0
  degree_v : ℕ := 0
  knotvector_u : List ℚ := []
  knotvector_v : List ℚ := []
  ctrlpts : List Pt := []
  ctrlpts2D : List (List Pt) := []
  size_u : ℕ := 0
  size_v : ℕ := 0
  delta : ℚ := 1/10
  surfpts : List Pt := []
  dimension : ℕ := 3
deriving DecidableEq, Repr

/-- `Surface._check_variables`: degrees, control points and both knot vectors must
be set. -/
def Surface.varsOk (s : Surface) : Bool :=
  s.degree_u != 0 && s.degree_v != 0 && !s.ctrlpts.isEmpty &&
    !s.knotvector_u.isEmpty && !s.knotvector_v.isEmpty

/-- `Surface._reset_surface`: drop the cached surface points (the source's guard
`if self._surface_points:` has the same effect). -/
def Surface.reset_surface (s : Surface) : Surface := { s with surfpts := [] }

/-- `Surface._reset_ctrlpts`: only when control points are present, clear both
views and zero the grid sizes (the guard is significant: with no stored points the
grid and sizes are left untouched). -/
def Surface.reset_ctrlpts (s : Surface) : Surface :=
  if s.ctrlpts.isEmpty then s
  else { s with ctrlpts := [], ctrlpts2D := [], size_u := 0, size_v := 0 }

/-- `Surface.set_ctrlpts`: the source clears the cached points and the stored
control points *before* any validation, then checks degrees, grid sizes and point
dimensions (`len(cpt) is not dimension`), and finally stores the flattened list and
appends the generated rows to the (previously cleared) 2D grid. -/
def Surface.set_ctrlpts (s0 : Surface) (cps : List Pt) (size_u size_v : ℕ) :
    Surface × Option Err :=
  let s := s0.reset_surface.reset_ctrlpts
  if s.degree_u = 0 ∨ s.degree_v = 0 then (s, some .degreesNotSet)
  else if size_u < s.degree_u + 1 then (s, some .tooFewCtrlpts)
  else if size_v < s.degree_v + 1 then (s, some .tooFewCtrlpts)
  else if (cps.find? (fun cpt => cpt.length != s.dimension)).isSome then
    (s, some .badCtrlptDim)
  else
    let s1 := { s with ctrlpts := cps, size_u := size_u, size_v := size_v }
    ({ s1 with ctrlpts2D := s1.ctrlpts2D ++ (List.range size_u).map (fun i =>
        (List.range size_v).map (fun j => cps.getD (j + i * size_v) [])) }, none)

/-- `Surface.transpose`: swap degrees and knot vectors, transpose the grid, and
rebuild the flattened list by the source's nested loops (outer index over the new
`v` size, inner over the new `u` size, appending `ctrlpts2D_new[u][v]`). -/
def Surface.transpose (s : Surface) : Surface :=
  let grid_new := (List.range s.size_v).map (fun v =>
    (List.range s.size_u).map (fun u => (s.ctrlpts2D.getD u []).getD v []))
  let newSU := s.size_v
  let newSV := s.size_u
  let cpts_new := (List.range newSV).foldl (fun acc v =>
    acc ++ (List.range newSU).map (fun u => (grid_new.getD u []).getD v [])) []
  { s with
    degree_u := s.degree_v
    degree_v := s.degree_u
    knotvector_u := s.knotvector_v
    knotvector_v := s.knotvector_u
    ctrlpts := cpts_new
    size_u := newSU
    size_v := newSV
    ctrlpts2D := grid_new
    surfpts := [] }

/-- Core of `Surface.surfpt` (Algorithm A3.5): tensor-product double sum over the
`(degree_u+1) × (degree_v+1)` window of the grid. -/
def Surface.surfpt_core (s : Surface) (u v : ℚ) : Pt :=
  let span_v := find_span s.degree_v s.knotvector_v s.size_v v
  let basis_v := basis_functions s.degree_v s.knotvector_v span_v v
  let span_u := find_span s.degree_u s.knotvector_u s.size_u u
  let basis_u := basis_functions s.degree_u s.knotvector_u span_u u
  let idx_u := span_u - s.degree_u
  (List.range (s.degree_v + 1)).foldl
    (fun spt l =>
      let idx_v := span_v - s.degree_v + l
      let temp := (List.range (s.degree_u + 1)).foldl
        (fun t k =>
          List.zipWith (fun a b => a + basis_u.getD k 0 * b) t
            ((s.ctrlpts2D.getD (idx_u + k) []).getD idx_v []))
        (List.replicate s.dimension 0)
      List.zipWith (fun a b => a + basis_v.getD l 0 * b) spt temp)
    (List.replicate s.dimension 0)

/-- `Surface.surfpt` with its variable and parameter checks. -/
def Surface.surfpt (s : Surface) (u v : ℚ) : Except Err Pt :=
  if !s.varsOk then .error .varsNotSet
  else if !check_uv (some u) (some v) then .error .paramRange
  else .ok (s.surfpt_core u v)

/-- The list of sampled surface points produced by `Surface.evaluate`. -/
def Surface.evaluateList (s : Surface) : List Pt :=
  (frange s.delta).flatMap (fun u => (frange s.delta).map (fun v => s.surfpt_core u v))

/-- End of `Surface.insert_knot`: re-evaluate the cached surface points when they
were present before the call. -/
def Surface.evalIfCached (s : Surface) : Surface :=
  if s.surfpts.isEmpty then s else { s with surfpts := s.evaluateList }

/-- The performed u-direction insertion of `Surface.insert_knot` (Algorithm A5.3):
splice the new knot vector, run the Boehm update on every u-line (one per `v`
index) with the precomputed alphas, rebuild the `[u][v]` grid and the flattened
list (v fastest). -/
def Surface.applyUInsert (s : Surface) (u0 : ℚ) (r s_u k_u : ℕ) : Surface :=
  let p := s.degree_u
  let UQ := s.knotvector_u.take (k_u + 1) ++ List.replicate r u0 ++
    s.knotvector_u.drop (k_u + 1)
  let alpha : ℕ → ℕ → ℚ := fun i j =>
    (u0 - s.knotvector_u.getD (k_u - p + j + i) 0) /
      (s.knotvector_u.getD (i + k_u + 1) 0 - s.knotvector_u.getD (k_u - p + j + i) 0)
  let newLines := (List.range s.size_v).map (fun row =>
    boehmLine alpha p s_u r k_u k_u s.size_u
      ((List.range s.size_u).map (fun i => (s.ctrlpts2D.getD i []).getD row [])))
  let grid_new := (List.range (s.size_u + r)).map (fun i =>
    (List.range s.size_v).map (fun row => (newLines.getD row []).getD i []))
  { s with
    knotvector_u := UQ
    ctrlpts2D := grid_new
    size_u := s.size_u + r
    ctrlpts := grid_new.flatten }

/-- The performed v-direction insertion of `Surface.insert_knot`.  The auxiliary
points are loaded from index `k_u - degree_v + i` — the u-direction span left over
from the u branch — exactly as the source does (`loadK := k_u`), while every other
index uses the v-direction span `k_v`.  (For `r = 0` the source would reuse a stale
`L` in the remaining-points loop; the claims only exercise `r ≥ 1`, where `L` is
`k_v - degree_v + r` as modelled by the kernel.) -/
def Surface.applyVInsert (s : Surface) (v0 : ℚ) (r s_v k_v k_u : ℕ) : Surface :=
  let q := s.degree_v
  let VQ := s.knotvector_v.take (k_v + 1) ++ List.replicate r v0 ++
    s.knotvector_v.drop (k_v + 1)
  let alpha : ℕ → ℕ → ℚ := fun i j =>
    (v0 - s.knotvector_v.getD (k_v - q + j + i) 0) /
      (s.knotvector_v.getD (i + k_v + 1) 0 - s.knotvector_v.getD (k_v - q + j + i) 0)
  let grid_new := (List.range s.size_u).map (fun col =>
    boehmLine alpha q s_v r k_v k_u s.size_v (s.ctrlpts2D.getD col []))
  { s with
    knotvector_v := VQ
    ctrlpts2D := grid_new
    size_v := s.size_v + r
    ctrlpts := grid_new.flatten }

/-- `Surface.insert_knot` (Algorithm A5.3).  Direction selection is by Python
truthiness of the arguments; the `can_insert_knot` success flag is shared between
the two branches; in the v branch the auxiliary control points are read through
`k_u`, which is only bound when the u branch actually performed an insertion —
otherwise Python raises `UnboundLocalError` as soon as the per-column loop runs
(i.e. whenever `size_u ≠ 0`). -/
def Surface.insert_knot (s : Surface) (u v : Option ℚ) (r : ℕ) :
    Except Err (Surface × List Warn) :=
  if !s.varsOk then .error .varsNotSet
  else if (truthy u || truthy v) && !check_uv u v then .error .paramRange
  else
    let uRejected := truthy u && decide ((r : ℤ) >
      (s.degree_u : ℤ) - (find_multiplicity (u.getD 0) s.knotvector_u : ℤ))
    let s1 := if truthy u && !uRejected then
        s.applyUInsert (u.getD 0) r (find_multiplicity (u.getD 0) s.knotvector_u)
          (find_span s.degree_u s.knotvector_u s.size_u (u.getD 0))
      else s
    let w1 : List Warn := if uRejected then [.cannotInsertU r] else []
    let kuOpt : Option ℕ := if truthy u && !uRejected then
        some (find_span s.degree_u s.knotvector_u s.size_u (u.getD 0)) else none
    if truthy v then
      let v0 := v.getD 0
      let s_v := find_multiplicity v0 s1.knotvector_v
      let vRejected := decide ((r : ℤ) > (s1.degree_v : ℤ) - (s_v : ℤ))
      let w2 := w1 ++ (if vRejected then [.cannotInsertV r] else [])
      if vRejected || uRejected then .ok (s1.evalIfCached, w2)
      else
        let k_v := find_span s1.degree_v s1.knotvector_v s1.size_v v0
        match kuOpt with
        | some k_u => .ok ((s1.applyVInsert v0 r s_v k_v k_u).evalIfCached, w2)
        | none =>
          if s1.size_u = 0 then .ok ((s1.applyVInsert v0 r s_v k_v 0).evalIfCached, w2)
          else .error .unboundLocalKU
    else .ok (s1.evalIfCached, w1)

/-!  Concrete fixtures used by the theorems below.  The four core rational
operations are marked `irreducible` by default, which blocks kernel evaluation of
closed rational facts; restoring the default reducibility lets `decide` compute
with the exact rational semantics. -/

attribute [local semireducible] Rat.add Rat.mul Rat.inv Rat.sub

deriving instance DecidableEq for Except

/-- The spec's concrete curve scenario: degree 2, clamped knot vector
`[0,0,0,1/2,1,1,1]`, planar control points `(0,0), (1,2), (3,2), (4,0)`. -/
def curveC8 : Curve :=
  { degree := 2
    knotvector := [0, 0, 0, 1/2, 1, 1, 1]
    ctrlpts := [[0, 0], [1, 2], [3, 2], [4, 0]]
    dimension := 2 }

/-- A bilinear 2×2 test surface. -/
def surfBilinear : Surface :=
  { degree_u := 1
    degree_v := 1
    knotvector_u := [0, 0, 1, 1]
    knotvector_v := [0, 0, 1, 1]
    ctrlpts := [[0, 0, 0], [0, 1, 0], [1, 0, 1], [1, 1, 2]]
    ctrlpts2D := [[[0, 0, 0], [0, 1, 0]], [[1, 0, 1], [1, 1, 2]]]
    size_u := 2
    size_v := 2 }

/-- A 2×3 test surface (degree 1 in u, degree 2 in v) with six distinct control
points. -/
def surf2x3 : Surface :=
  { degree_u := 1
    degree_v := 2
    knotvector_u := [0, 0, 1, 1]
    knotvector_v := [0, 0, 0, 1, 1, 1]
    ctrlpts := [[1, 0, 0], [2, 0, 0], [3, 0, 0], [4, 0, 0], [5, 0, 0], [6, 0, 0]]
    ctrlpts2D := [[[1, 0, 0], [2, 0, 0], [3, 0, 0]], [[4, 0, 0], [5, 0, 0], [6, 0, 0]]]
    size_u := 2
    size_v := 3 }

/-- C1: a v-direction knot insertion whose precondition `r ≤ degree_v - s_v` holds
(first conjunct) does not leave the surface point unchanged — the call cannot even
complete: the v branch reads `k_u`, which is unbound when no u-direction insertion
was performed, so Python raises `UnboundLocalError` (second conjunct) instead of
performing the insertion. -/
theorem C1_v_insertion_raises_unbound_ku :
    (1 : ℤ) ≤ (surfBilinear.degree_v : ℤ) -
        (find_multiplicity (1/2) surfBilinear.knotvector_v : ℤ) ∧
    surfBilinear.insert_knot none (some (1/2)) 1 = .error .unboundLocalKU := by
  constructor
  · decide
  · decide

/-- C2: after `transpose` on the 2×3 fixture the degrees, knot vectors and the 2D
grid are swapped/transposed and the cached points are cleared, but the flattened
control-point list is *not* consistent with the grid in v-fastest order: the loop
appends `ctrlpts2d_new[u][v]` with `u` as the inner index, leaving the flattened
list in u-fastest order (it equals the pre-transpose flattened list). -/
theorem C2_transpose_flatten_inconsistent :
    (surf2x3.transpose.degree_u = surf2x3.degree_v ∧
     surf2x3.transpose.degree_v = surf2x3.degree_u ∧
     surf2x3.transpose.knotvector_u = surf2x3.knotvector_v ∧
     surf2x3.transpose.knotvector_v = surf2x3.knotvector_u ∧
     surf2x3.transpose.surfpts = [] ∧
     surf2x3.transpose.size_u = surf2x3.size_v ∧
     surf2x3.transpose.size_v = surf2x3.size_u ∧
     (∀ i < surf2x3.transpose.size_u, ∀ j < surf2x3.transpose.size_v,
       (surf2x3.transpose.ctrlpts2D.getD i []).getD j [] =
         (surf2x3.ctrlpts2D.getD j []).getD i [])) ∧
    ¬ (∀ i < surf2x3.transpose.size_u, ∀ j < surf2x3.transpose.size_v,
       surf2x3.transpose.ctrlpts.getD (j + i * surf2x3.transpose.size_v) [] =
         (surf2x3.transpose.ctrlpts2D.getD i []).getD j []) := by
  constructor
  · decide
  · decide

/-- C3, counterexample: on the 2×3 fixture, `insert_knot(u = 1/2, v = 1/2, r = 2)`
has an otherwise-valid v-direction insertion (`r = 2 ≤ degree_v - s_v`, first
conjunct), yet because the u-direction insertion is rejected
(`r = 2 > degree_u - s_u = 1`) the shared `can_insert_knot` flag suppresses the v
insertion too: the state comes back entirely unchanged with only the u warning. -/
theorem C3_shared_flag_counterexample :
    (2 : ℤ) ≤ (surf2x3.degree_v : ℤ) -
        (find_multiplicity (1/2) surf2x3.knotvector_v : ℤ) ∧
    surf2x3.insert_knot (some (1/2)) (some (1/2)) 2 =
      .ok (surf2x3, [Warn.cannotInsertU 2]) := by
  constructor
  · decide
  · decide

/-- C5, counterexample: `set_ctrlpts` on a surface holding control points, called
with one wrong-dimension input point, raises the dimension error — but the stored
control points are *not* left as they were: they were cleared before validation. -/
theorem C5_surface_clears_before_validating :
    (surfBilinear.set_ctrlpts [[0, 0, 0], [0, 1, 0], [1, 0, 1], [1, 1, 2, 3]] 2 2).2 =
      some Err.badCtrlptDim ∧
    (surfBilinear.set_ctrlpts [[0, 0, 0], [0, 1, 0], [1, 0, 1], [1, 1, 2, 3]] 2 2).1.ctrlpts
      = [] ∧
    surfBilinear.ctrlpts ≠ [] := by
  refine ⟨by decide, by decide, by decide⟩

/-- C7, counterexample: the knot vector `[0, 1/2, 1/2, 1]` is valid for degree 1
and 2 control points under the spec's validity check (length `n+p+1`,
non-decreasing, normalized), and `u = 1/2 ∈ [0,1]`; the found span is 1, but there
the first-level Cox–de Boor denominator `right[1] + left[1] = U[2] - U[1]` is zero
(Python raises `ZeroDivisionError`; in the total ℚ model the basis values come out
as zeros), so the basis values at the found span do not sum to 1. -/
theorem C7_degenerate_span_counterexample :
    ([0, 1/2, 1/2, 1] : List ℚ).length = 2 + 1 + 1 ∧
    ([0, 1/2, 1/2, 1] : List ℚ).Sorted (· ≤ ·) ∧
    find_span 1 [0, 1/2, 1/2, 1] 2 (1/2) = 1 ∧
    rightVal [0, 1/2, 1/2, 1] 1 (1/2) 1 + leftVal [0, 1/2, 1/2, 1] 1 (1/2) 1 = 0 ∧
    (basis_functions 1 [0, 1/2, 1/2, 1] (find_span 1 [0, 1/2, 1/2, 1] 2 (1/2))
        (1/2)).sum ≠ 1 := by
  refine ⟨by decide, by decide, by decide, by decide, by decide⟩

/-!  List helper lemmas. -/

/-- A fold whose step function fixes the accumulator leaves it unchanged. -/
theorem foldl_fixed {α β : Type} {g : α → β → α} {b : α} :
    ∀ {l : List β}, (∀ x ∈ l, g b x = b) → l.foldl g b = b
  | [], _ => rfl
  | x :: xs, h => by
    rw [List.foldl_cons, h x (List.mem_cons_self x xs)]
    exact foldl_fixed fun y hy => h y (List.mem_cons_of_mem x hy)

/-- Monotonicity of indexed access on a sorted list of knots. -/
theorem getD_mono_of_sorted {U : List ℚ} (hs : U.Sorted (· ≤ ·)) {i k : ℕ}
    (hik : i ≤ k) (hk : k < U.length) : U.getD i 0 ≤ U.getD k 0 := by
  have hi : i < U.length := lt_of_le_of_lt hik hk
  rw [List.getD_eq_getElem U 0 hi, List.getD_eq_getElem U 0 hk]
  rcases eq_or_lt_of_le hik with rfl | hlt
  · exact le_refl _
  · exact List.pairwise_iff_get.mp hs ⟨i, hi⟩ ⟨k, hk⟩ hlt

/-- Length of `takeWhile` on a contiguous range: if the predicate holds on the
first `c` positions and fails at position `c` (when inside the range), the prefix
has length `c`. -/
theorem takeWhile_range'_length (p : ℕ → Bool) :
    ∀ (len s c : ℕ), (∀ i, s ≤ i → i < s + c → p i = true) →
      (c < len → p (s + c) = false) → c ≤ len →
      ((List.range' s len).takeWhile p).length = c := by
  intro len
  induction len with
  | zero =>
    intro s c _ _ hcl
    interval_cases c
    simp
  | succ len ih =>
    intro s c h1 h2 hcl
    rw [List.range'_succ, List.takeWhile_cons]
    cases c with
    | zero =>
      have hf : p s = false := by simpa using h2 (Nat.succ_pos len)
      simp [hf]
    | succ c' =>
      have hps : p s = true := h1 s le_rfl (by omega)
      rw [if_pos hps]
      have := ih (s + 1) c' (fun i hi hi2 => h1 i (by omega) (by omega))
        (fun hc => by simpa [Nat.add_right_comm s 1 c'] using h2 (by omega))
        (by omega)
      simp [this]

/-- `find_span` through the count of leading knots `≤ u`. -/
theorem find_span_eq (p : ℕ) (U : List ℚ) (n : ℕ) (u : ℚ) (c : ℕ)
    (h1 : ∀ i, i < c → U.getD i 0 ≤ u)
    (h2 : c < n → ¬ U.getD c 0 ≤ u)
    (hcn : c ≤ n) :
    find_span p U n u = c - 1 := by
  unfold find_span
  rw [List.range_eq_range']
  rw [takeWhile_range'_length _ n 0 c
    (fun i _ hi => by simpa using h1 i (by omega))
    (fun hc => by simpa using h2 hc) hcn]

/-- The end-of-call cache re-evaluation is the identity whenever the cache is
empty or already consistent with the geometry. -/
theorem evalIfCached_eq_self {s : Surface}
    (hc : s.surfpts = [] ∨ s.surfpts = s.evaluateList) : s.evalIfCached = s := by
  unfold Surface.evalIfCached
  by_cases he : s.surfpts.isEmpty
  · rw [if_pos he]
  · rcases hc with h | h
    · exact absurd (by simp [h]) he
    · rw [if_neg he, ← h]

/-- The u-direction insertion touches only the u-direction data: degrees, the
v-direction knot vector and the v-direction size are unchanged. -/
theorem applyUInsert_preserves_v (s : Surface) (u0 : ℚ) (r s_u k_u : ℕ) :
    (s.applyUInsert u0 r s_u k_u).degree_v = s.degree_v ∧
    (s.applyUInsert u0 r s_u k_u).knotvector_v = s.knotvector_v ∧
    (s.applyUInsert u0 r s_u k_u).size_v = s.size_v := by
  refine ⟨rfl, rfl, rfl⟩

/-- The cache re-evaluation touches only the cached points. -/
theorem evalIfCached_preserves (s : Surface) :
    s.evalIfCached.degree_v = s.degree_v ∧
    s.evalIfCached.knotvector_v = s.knotvector_v ∧
    s.evalIfCached.size_v = s.size_v := by
  unfold Surface.evalIfCached
  by_cases he : s.surfpts.isEmpty
  · rw [if_pos he]; exact ⟨rfl, rfl, rfl⟩
  · rw [if_neg he]; exact ⟨rfl, rfl, rfl⟩

/-- C4: a curve knot insertion requesting more multiplicity than
`degree - multiplicity(u)` is a complete no-op distinct from an error: the call
returns (with only a warning) and the state — knot vector, control points, their
lengths, and the cached curve points — is exactly the state before the call. -/
theorem C4_reject_is_noop (c : Curve) (u : ℚ) (r : ℕ)
    (hv : c.varsOk = true) (h0 : 0 ≤ u) (h1 : u ≤ 1)
    (hr : (c.degree : ℤ) - (find_multiplicity u c.knotvector : ℤ) < (r : ℤ)) :
    c.insert_knot u r = .ok (c, [Warn.cannotInsert r]) := by
  unfold Curve.insert_knot
  rw [hv]
  simp only [Bool.not_true, Bool.false_eq_true, if_false, check_uv, Bool.and_true]
  rw [decide_eq_true (⟨h0, h1⟩ : 0 ≤ u ∧ u ≤ 1)]
  simp only [Bool.not_true, Bool.false_eq_true, if_false]
  rw [if_pos hr]

/-- Witness for C4 at the spec's concrete curve: `u = 1/2` has multiplicity 1 in
the knot vector and `r = 2 > degree - 1 = 1`, so the call is rejected unchanged. -/
theorem C4_reject_is_noop_witness :
    curveC8.insert_knot (1/2) 2 = .ok (curveC8, [Warn.cannotInsert 2]) :=
  C4_reject_is_noop curveC8 (1/2) 2 (by decide) (by decide) (by decide) (by decide)

/-- C3, amended: when both `u` and `v` are supplied (and truthy) and the
u-direction insertion is rejected, the shared `can_insert_knot` flag suppresses the
v-direction insertion as well — the surface comes back exactly unchanged, with the
u warning and, when `r` also exceeds the v budget, the v warning; in particular the
v-direction insertion is *not* applied even when `r ≤ degree_v - s_v`. -/
theorem C3_amended_shared_flag (s : Surface) (u0 v0 : ℚ) (r : ℕ)
    (hv : s.varsOk = true)
    (hu0 : u0 ≠ 0) (hv0 : v0 ≠ 0)
    (h0u : 0 ≤ u0) (h1u : u0 ≤ 1) (h0v : 0 ≤ v0) (h1v : v0 ≤ 1)
    (hrej : (s.degree_u : ℤ) - (find_multiplicity u0 s.knotvector_u : ℤ) < (r : ℤ))
    (hcache : s.surfpts = [] ∨ s.surfpts = s.evaluateList) :
    s.insert_knot (some u0) (some v0) r =
      .ok (s, Warn.cannotInsertU r ::
        (if (s.degree_v : ℤ) - (find_multiplicity v0 s.knotvector_v : ℤ) < (r : ℤ)
          then [Warn.cannotInsertV r] else [])) := by
  unfold Surface.insert_knot
  rw [hv]
  rw [show truthy (some u0) = true by simp [truthy, hu0]]
  rw [show truthy (some v0) = true by simp [truthy, hv0]]
  rw [show check_uv (some u0) (some v0) = true by
    simp only [check_uv, Bool.and_eq_true, decide_eq_true_eq]
    exact ⟨⟨h0u, h1u⟩, ⟨h0v, h1v⟩⟩]
  simp only [Option.getD_some, Bool.true_or, Bool.not_true, Bool.and_false,
    Bool.true_and, Bool.false_eq_true, if_false]
  rw [show decide ((r : ℤ) > (s.degree_u : ℤ) -
      (find_multiplicity u0 s.knotvector_u : ℤ)) = true from decide_eq_true hrej]
  simp only [Bool.not_true, Bool.and_false, Bool.false_eq_true, if_false,
    Bool.true_or, Bool.or_true, if_true]
  rw [evalIfCached_eq_self hcache]
  by_cases hvr : (s.degree_v : ℤ) - (find_multiplicity v0 s.knotvector_v : ℤ) < (r : ℤ)
  · rw [if_pos hvr, show decide ((r : ℤ) > (s.degree_v : ℤ) -
      (find_multiplicity v0 s.knotvector_v : ℤ)) = true from decide_eq_true hvr]
    simp
  · rw [if_neg hvr, show decide ((r : ℤ) > (s.degree_v : ℤ) -
      (find_multiplicity v0 s.knotvector_v : ℤ)) = false from decide_eq_false hvr]
    simp

/-- Witness for the amended C3: on the 2×3 fixture with `r = 3` both directions are
over budget; the call returns the unchanged surface with both warnings. -/
theorem C3_amended_shared_flag_witness :
    surf2x3.insert_knot (some (1/2)) (some (1/2)) 3 =
      .ok (surf2x3, [Warn.cannotInsertU 3, Warn.cannotInsertV 3]) := by
  have h := C3_amended_shared_flag surf2x3 (1/2) (1/2) 3 (by decide) (by decide)
    (by decide) (by decide) (by decide) (by decide) (by decide) (by decide)
    (Or.inl (by decide))
  rw [if_pos (by decide)] at h
  exact h

/-- C10: direction selection in `Surface.insert_knot` is by Python truthiness of
the arguments.  (1) `u = 0.0` with `v = None` skips everything: the call returns
the unchanged surface with no warnings; (2) `u = None, v = None` performs no
parameter validation and returns the surface completely unchanged; (3) with a
valid truthy `u` and `v = 0.0`, the v direction is skipped entirely — the call
succeeds, the v-direction degree, knot vector and size are unchanged and no
v warning is emitted, whatever the u direction did. -/
theorem C10_truthiness_selection (s : Surface) (r : ℕ)
    (hv : s.varsOk = true)
    (hcache : s.surfpts = [] ∨ s.surfpts = s.evaluateList) :
    s.insert_knot (some 0) none r = .ok (s, []) ∧
    s.insert_knot none none r = .ok (s, []) ∧
    (∀ u0 : ℚ, u0 ≠ 0 → 0 ≤ u0 → u0 ≤ 1 →
      (s.insert_knot (some u0) (some 0) r).isOk = true ∧
      ∀ s1 w, s.insert_knot (some u0) (some 0) r = .ok (s1, w) →
        s1.degree_v = s.degree_v ∧ s1.knotvector_v = s.knotvector_v ∧
        s1.size_v = s.size_v ∧ Warn.cannotInsertV r ∉ w) := by
  have ht0 : truthy (some (0 : ℚ)) = false := by simp [truthy]
  have htn : truthy none = false := rfl
  refine ⟨?_, ?_, ?_⟩
  · unfold Surface.insert_knot
    rw [hv, ht0, htn]
    simp only [Bool.or_false, Bool.false_and, Bool.false_eq_true, if_false,
      Bool.not_false, Bool.and_true]
    rw [evalIfCached_eq_self hcache]
    simp
  · unfold Surface.insert_knot
    rw [hv, htn]
    simp only [Bool.or_false, Bool.false_and, Bool.false_eq_true, if_false,
      Bool.not_false, Bool.and_true]
    rw [evalIfCached_eq_self hcache]
    simp
  · intro u0 hu0 h0 h1
    have htu : truthy (some u0) = true := by simp [truthy, hu0]
    have hcheck : check_uv (some u0) (some 0) = true := by
      simp only [check_uv, Bool.and_eq_true, decide_eq_true_eq]
      exact ⟨⟨h0, h1⟩, ⟨le_refl 0, by norm_num⟩⟩
    constructor
    · unfold Surface.insert_knot
      rw [hv, ht0, htu, hcheck]
      simp only [Bool.true_or, Bool.not_true, Bool.and_false, Bool.false_eq_true,
        if_false, Except.isOk]
      split <;> rfl
    · intro s1 w hok
      unfold Surface.insert_knot at hok
      rw [hv, ht0, htu, hcheck] at hok
      simp only [Bool.true_or, Bool.not_true, Bool.and_false, Bool.false_eq_true,
        if_false, Option.getD_some, Bool.true_and] at hok
      by_cases hb : decide ((r : ℤ) > (s.degree_u : ℤ) -
          (find_multiplicity u0 s.knotvector_u : ℤ)) = true
      · rw [hb] at hok
        simp only [Bool.not_true, Bool.and_false, Bool.false_eq_true, if_false,
          if_true, Bool.true_and] at hok
        rw [Except.ok.injEq, Prod.mk.injEq] at hok
        obtain ⟨hs1, hw⟩ := hok
        refine ⟨?_, ?_, ?_, ?_⟩
        · rw [← hs1]; exact (evalIfCached_preserves s).1
        · rw [← hs1]; exact (evalIfCached_preserves s).2.1
        · rw [← hs1]; exact (evalIfCached_preserves s).2.2
        · rw [← hw]; simp
      · rw [Bool.not_eq_true] at hb
        rw [hb] at hok
        simp only [Bool.not_false, Bool.and_true, if_true, Bool.false_eq_true,
          if_false] at hok
        rw [Except.ok.injEq, Prod.mk.injEq] at hok
        obtain ⟨hs1, hw⟩ := hok
        set sa := s.applyUInsert u0 r (find_multiplicity u0 s.knotvector_u)
          (find_span s.degree_u s.knotvector_u s.size_u u0) with hsa
        refine ⟨?_, ?_, ?_, ?_⟩
        · rw [← hs1]
          rw [(evalIfCached_preserves sa).1]
          exact (applyUInsert_preserves_v s u0 _ _ _).1
        · rw [← hs1]
          rw [(evalIfCached_preserves sa).2.1]
          exact (applyUInsert_preserves_v s u0 _ _ _).2.1
        · rw [← hs1]
          rw [(evalIfCached_preserves sa).2.2]
          exact (applyUInsert_preserves_v s u0 _ _ _).2.2
        · rw [← hw]; simp

/-- Witness for C10 on the bilinear fixture. -/
theorem C10_truthiness_selection_witness :
    surfBilinear.insert_knot (some 0) none 1 = .ok (surfBilinear, []) ∧
    surfBilinear.insert_knot none none 1 = .ok (surfBilinear, []) ∧
    (surfBilinear.insert_knot (some (1/2)) (some 0) 1).isOk = true := by
  have h := C10_truthiness_selection surfBilinear 1 (by decide) (Or.inl (by decide))
  exact ⟨h.1, h.2.1, (h.2.2 (1/2) (by decide) (by decide) (by decide)).1⟩

/-- The per-point loop of the `Curve.ctrlpts` setter stops at the first point with
more than `dimension` coordinates, leaving the converted prefix appended. -/
theorem ctrlptsSetLoopPartial (good : List Pt) :
    ∀ (c : Curve) (bad : Pt) (rest : List Pt),
      (∀ g ∈ good, g.length ≤ c.dimension) → c.dimension < bad.length →
      Curve.ctrlptsSetLoop c (good ++ bad :: rest) =
        ({ c with ctrlpts := c.ctrlpts ++ good }, some Err.badCtrlptDim) := by
  induction good with
  | nil =>
    intro c bad rest _ hb
    simp [Curve.ctrlptsSetLoop, if_pos hb]
  | cons g gs ih =>
    intro c bad rest hg hb
    have hgle : ¬ c.dimension < g.length := not_lt.mpr (hg g (List.mem_cons_self g gs))
    simp only [List.cons_append, Curve.ctrlptsSetLoop, if_neg hgle, List.append_eq]
    rw [ih { c with ctrlpts := c.ctrlpts ++ [g] } bad rest
      (fun x hx => hg x (List.mem_cons_of_mem g hx)) hb]
    rw [← List.append_cons]

/-- C5, amended: configuration-error failures of the control-point mutators are
not atomic.  Only the too-few-points check of `Curve.ctrlpts` fires before any
mutation (first conjunct); a wrong-dimension point makes the curve setter raise
after the old points were cleared and the valid prefix appended (second conjunct);
and every validation failure of `Surface.set_ctrlpts` (degrees unset, sizes too
small, or a wrong-dimension point) raises only after the stored control points,
the 2D grid and both sizes have been cleared (third conjunct). -/
theorem C5_amended_not_atomic :
    (∀ (c : Curve) (value : List Pt), value.length < c.degree + 1 →
      c.ctrlpts_set value = (c, some Err.tooFewCtrlpts)) ∧
    (∀ (c : Curve) (good : List Pt) (bad : Pt) (rest : List Pt),
      c.degree + 1 ≤ (good ++ bad :: rest).length →
      (∀ g ∈ good, g.length ≤ c.dimension) → c.dimension < bad.length →
      c.ctrlpts_set (good ++ bad :: rest) =
        ({ c with curvepts := [], ctrlpts := good }, some Err.badCtrlptDim)) ∧
    (∀ (s : Surface) (cps : List Pt) (su sv : ℕ),
      s.ctrlpts ≠ [] →
      (s.degree_u = 0 ∨ s.degree_v = 0 ∨ su < s.degree_u + 1 ∨ sv < s.degree_v + 1 ∨
        ∃ bad ∈ cps, bad.length ≠ s.dimension) →
      (s.set_ctrlpts cps su sv).2.isSome = true ∧
      (s.set_ctrlpts cps su sv).1 =
        { s with surfpts := [], ctrlpts := [], ctrlpts2D := [], size_u := 0, size_v := 0 }) := by
  refine ⟨?_, ?_, ?_⟩
  · intro c value h
    unfold Curve.ctrlpts_set
    rw [if_pos h]
  · intro c good bad rest hlen hg hb
    unfold Curve.ctrlpts_set
    rw [if_neg (not_lt.mpr hlen)]
    rw [ctrlptsSetLoopPartial good { c with curvepts := [], ctrlpts := [] } bad rest hg hb]
    simp
  · intro s cps su sv hne hrej
    have hclear : s.reset_surface.reset_ctrlpts =
        { s with surfpts := [], ctrlpts := [], ctrlpts2D := [], size_u := 0, size_v := 0 } := by
      unfold Surface.reset_surface Surface.reset_ctrlpts
      rw [if_neg (by simpa using hne)]
    unfold Surface.set_ctrlpts
    rw [hclear]
    by_cases h1 : s.degree_u = 0 ∨ s.degree_v = 0
    · rw [if_pos (by simpa using h1)]
      exact ⟨rfl, rfl⟩
    · rw [if_neg (by simpa using h1)]
      by_cases h2 : su < s.degree_u + 1
      · rw [if_pos (by simpa using h2)]
        exact ⟨rfl, rfl⟩
      · rw [if_neg (by simpa using h2)]
        by_cases h3 : sv < s.degree_v + 1
        · rw [if_pos (by simpa using h3)]
          exact ⟨rfl, rfl⟩
        · rw [if_neg (by simpa using h3)]
          have h4 : ∃ bad ∈ cps, bad.length ≠ s.dimension := by
            rcases hrej with h | h | h | h | h
            · exact absurd (Or.inl h) h1
            · exact absurd (Or.inr h) h1
            · exact absurd h h2
            · exact absurd h h3
            · exact h
          have hfind : (cps.find? (fun cpt => cpt.length != s.dimension)).isSome = true := by
            rw [List.find?_isSome]
            obtain ⟨bad, hmem, hlen⟩ := h4
            exact ⟨bad, hmem, by simpa using hlen⟩
          rw [if_pos (by simpa using hfind)]
          exact ⟨rfl, rfl⟩

/-- Witness for the amended C5 at concrete instances of all three conjuncts. -/
theorem C5_amended_not_atomic_witness :
    curveC8.ctrlpts_set [[0, 0]] = (curveC8, some Err.tooFewCtrlpts) ∧
    curveC8.ctrlpts_set [[0, 0], [1, 1], [2, 2, 2], [3, 3]] =
      ({ curveC8 with curvepts := [], ctrlpts := [[0, 0], [1, 1]] },
        some Err.badCtrlptDim) ∧
    (surfBilinear.set_ctrlpts [[9, 9, 9, 9]] 2 2).2.isSome = true ∧
    (surfBilinear.set_ctrlpts [[9, 9, 9, 9]] 2 2).1 =
      { surfBilinear with
        surfpts := []
        ctrlpts := []
        ctrlpts2D := []
        size_u := 0
        size_v := 0 } := by
  have h := C5_amended_not_atomic
  have hsurf := h.2.2 surfBilinear [[9, 9, 9, 9]] 2 2 (by decide)
    (Or.inr (Or.inr (Or.inr (Or.inr ⟨[9, 9, 9, 9], by decide, by decide⟩))))
  refine ⟨h.1 curveC8 [[0, 0]] (by decide), ?_, hsurf.1, hsurf.2⟩
  exact h.2.1 curveC8 [[0, 0], [1, 1]] [2, 2, 2] [[3, 3]] (by decide) (by decide)
    (by decide)

theorem basisInner_length (U : List ℚ) (span : ℕ) (u : ℚ) (j : ℕ) (N : List ℚ) :
    ∀ (r : ℕ) (saved : ℚ), (basisInner U span u j N r saved).length = N.length + 1 := by
  induction N with
  | nil => intro r saved; rfl
  | cons n rest ih => intro r saved; simp [basisInner, ih]

theorem basisFunsAux_length (U : List ℚ) (span : ℕ) (u : ℚ) :
    ∀ j, (basisFunsAux U span u j).length = j + 1
  | 0 => rfl
  | j + 1 => by
    rw [basisFunsAux, basisInner_length, basisFunsAux_length U span u j]

theorem basisInner_sum (U : List ℚ) (span : ℕ) (u : ℚ) (j : ℕ) (N : List ℚ) :
    ∀ (r : ℕ) (saved : ℚ),
      (∀ idx < N.length,
        rightVal U span u (r + idx + 1) + leftVal U span u (j - (r + idx)) ≠ 0) →
      (basisInner U span u j N r saved).sum = saved + N.sum := by
  induction N with
  | nil => intro r saved _; simp [basisInner]
  | cons n rest ih =>
    intro r saved h
    have h0 : rightVal U span u (r + 1) + leftVal U span u (j - r) ≠ 0 := by
      have := h 0 (Nat.succ_pos _)
      simpa using this
    simp only [basisInner, List.sum_cons]
    rw [ih (r + 1) _ (fun idx hidx => by
      have := h (idx + 1) (by simpa using Nat.succ_lt_succ hidx)
      have heq : r + (idx + 1) = r + 1 + idx := by omega
      rwa [heq] at this)]
    have key : (rightVal U span u (r + 1) + leftVal U span u (j - r)) *
        (n / (rightVal U span u (r + 1) + leftVal U span u (j - r))) = n := by
      field_simp
    nlinarith [key]

theorem basisFunsAux_sum_one (U : List ℚ) (span : ℕ) (u : ℚ) (p : ℕ)
    (hs : U.Sorted (· ≤ ·)) (hb : span + p < U.length)
    (hnd : U.getD span 0 < U.getD (span + 1) 0) :
    ∀ j, j ≤ p → (basisFunsAux U span u j).sum = 1 := by
  intro j
  induction j with
  | zero => intro _; simp [basisFunsAux]
  | succ j ih =>
    intro hj
    rw [basisFunsAux, basisInner_sum U span u (j + 1) _ 0 0 ?_, zero_add,
      ih (Nat.le_of_succ_le hj)]
    intro idx hidx
    rw [basisFunsAux_length] at hidx
    have hA : U.getD (span + 1) 0 ≤ U.getD (span + (0 + idx) + 1) 0 :=
      getD_mono_of_sorted hs (by omega) (by omega)
    have hB : U.getD (span + 1 - (j + 1 - (0 + idx))) 0 ≤ U.getD span 0 :=
      getD_mono_of_sorted hs (by omega) (by omega)
    have hpos : 0 < rightVal U span u (0 + idx + 1) +
        leftVal U span u (j + 1 - (0 + idx)) := by
      unfold rightVal leftVal
      have h1 : span + (0 + idx) + 1 = span + (0 + idx + 1) := by omega
      rw [h1] at hA
      linarith
    exact ne_of_gt hpos

/-- C7, amended: the basis values at the span found for `u` sum exactly to 1
provided the found span is non-degenerate (`knots[span] < knots[span+1]`); the
spec's validity check (length and non-decreasing order alone) does not rule out
the degenerate case, where the source divides by zero. -/
theorem C7_amended_partition_of_unity (p n : ℕ) (U : List ℚ) (u : ℚ)
    (hs : U.Sorted (· ≤ ·))
    (hb : find_span p U n u + p < U.length)
    (hnd : U.getD (find_span p U n u) 0 < U.getD (find_span p U n u + 1) 0) :
    (basis_functions p U (find_span p U n u) u).sum = 1 :=
  basisFunsAux_sum_one U (find_span p U n u) u p hs hb hnd p le_rfl

/-- Witness for the amended C7 on the spec's clamped knot vector at `u = 1/4`. -/
theorem C7_amended_partition_of_unity_witness :
    (basis_functions 2 [0, 0, 0, 1/2, 1, 1, 1]
      (find_span 2 [0, 0, 0, 1/2, 1, 1, 1] 4 (1/4)) (1/4)).sum = 1 :=
  C7_amended_partition_of_unity 2 4 [0, 0, 0, 1/2, 1, 1, 1] (1/4)
    (by decide) (by decide) (by decide)

theorem basisInner_zeros (U : List ℚ) (span : ℕ) (u : ℚ) (j : ℕ) :
    ∀ (m r : ℕ), basisInner U span u j (List.replicate m 0) r 0 =
      List.replicate (m + 1) 0 := by
  intro m
  induction m with
  | zero => intro r; rfl
  | succ m ih =>
    intro r
    rw [List.replicate_succ]
    simp only [basisInner, zero_div, mul_zero, add_zero, zero_add]
    rw [ih (r + 1)]
    simp [List.replicate_succ]

theorem basisInner_zeros_prefix (U : List ℚ) (span : ℕ) (u : ℚ) (j : ℕ) (L : List ℚ) :
    ∀ (m r : ℕ), basisInner U span u j (List.replicate m 0 ++ L) r 0 =
      List.replicate m 0 ++ basisInner U span u j L (r + m) 0 := by
  intro m
  induction m with
  | zero => intro r; simp
  | succ m ih =>
    intro r
    rw [List.replicate_succ, List.cons_append]
    simp only [basisInner, zero_div, mul_zero, add_zero, zero_add]
    rw [ih (r + 1)]
    have : r + 1 + m = r + (m + 1) := by omega
    simp [this]

theorem getD_replicate_zero (p i : ℕ) : (List.replicate p (0 : ℚ)).getD i 0 = 0 := by
  by_cases h : i < p
  · rw [List.getD_eq_getElem _ _ (by simpa using h)]
    simp
  · rw [List.getD_eq_default _ _ (by simpa using not_lt.mp h)]

theorem zipWith_add_one_mul (l : List ℚ) :
    ∀ n, l.length = n → List.zipWith (fun a b => a + 1 * b) (List.replicate n 0) l = l := by
  induction l with
  | nil => intro n _; simp
  | cons x xs ih =>
    intro n hn
    cases n with
    | zero => simp at hn
    | succ m =>
      rw [List.replicate_succ, List.zipWith_cons_cons]
      rw [ih m (by simpa using hn)]
      norm_num

theorem zipWith_add_zero_mul (l : List ℚ) :
    ∀ q : List ℚ, l.length ≤ q.length →
      List.zipWith (fun a b => a + 0 * b) l q = l := by
  induction l with
  | nil => intro q _; simp
  | cons x xs ih =>
    intro q hq
    cases q with
    | nil => simp at hq
    | cons y ys =>
      rw [List.zipWith_cons_cons, ih ys (by simpa using hq)]
      norm_num

theorem basis_clamped_at_zero (U : List ℚ) (p : ℕ)
    (hfirst : ∀ i ≤ p, U.getD i 0 = 0)
    (hppos : U.getD (p + 1) 0 ≠ 0) :
    ∀ j ≤ p, basisFunsAux U p 0 j = 1 :: List.replicate j 0 := by
  intro j
  induction j with
  | zero => intro _; rfl
  | succ j ih =>
    intro hj
    rw [basisFunsAux, ih (Nat.le_of_succ_le hj)]
    have hleft : leftVal U p 0 (j + 1 - 0) = 0 := by
      unfold leftVal
      rw [show p + 1 - (j + 1 - 0) = p - j from by omega, hfirst (p - j) (by omega)]
      ring
    have hright : rightVal U p 0 (0 + 1) = U.getD (p + 1) 0 := by
      unfold rightVal
      norm_num
    simp only [basisInner, hleft, hright, zero_mul, mul_zero, add_zero, zero_add,
      mul_one_div, zero_div]
    rw [basisInner_zeros, div_self hppos]

theorem basis_clamped_at_one (U : List ℚ) (p n : ℕ)
    (hn : 1 ≤ n)
    (hlast : ∀ i, n ≤ i → i ≤ n + p → U.getD i 0 = 1)
    (hlast1 : U.getD (n - 1) 0 ≠ 1) :
    ∀ j ≤ p, basisFunsAux U (n - 1) 1 j = List.replicate j 0 ++ [1] := by
  intro j
  induction j with
  | zero => intro _; rfl
  | succ j ih =>
    intro hj
    rw [basisFunsAux, ih (Nat.le_of_succ_le hj), basisInner_zeros_prefix]
    have hright : rightVal U (n - 1) 1 (j + 1) = 0 := by
      unfold rightVal
      rw [show n - 1 + (j + 1) = n + j from by omega,
        hlast (n + j) (by omega) (by omega)]
      ring
    have hleft : leftVal U (n - 1) 1 (j + 1 - j) = 1 - U.getD (n - 1) 0 := by
      unfold leftVal
      rw [show n - 1 + 1 - (j + 1 - j) = n - 1 from by omega]
    have hL : (1 : ℚ) - U.getD (n - 1) 0 ≠ 0 := sub_ne_zero.mpr (Ne.symm hlast1)
    simp only [basisInner, zero_add, hright, hleft, zero_mul, mul_zero, add_zero,
      mul_one_div, zero_div]
    rw [div_self hL]
    have hsplit : List.replicate j (0 : ℚ) ++ [0, 1] =
        (List.replicate j (0 : ℚ) ++ [0]) ++ [1] := by simp
    rw [hsplit, ← List.replicate_succ', List.replicate_succ, List.cons_append]

theorem find_span_clamped_zero (p n : ℕ) (U : List ℚ)
    (hfirst : ∀ i ≤ p, U.getD i 0 = 0)
    (hppos : 0 < U.getD (p + 1) 0)
    (hn : p + 1 ≤ n) :
    find_span p U n 0 = p := by
  have h := find_span_eq p U n 0 (p + 1)
    (fun i hi => le_of_eq (hfirst i (by omega)))
    (fun _ => not_le.mpr hppos) hn
  simpa using h

theorem find_span_clamped_one (p n : ℕ) (U : List ℚ)
    (hs : U.Sorted (· ≤ ·)) (hlen : U.length = n + p + 1)
    (htop : U.getD (n + p) 0 = 1) :
    find_span p U n 1 = n - 1 := by
  apply find_span_eq p U n 1 n ?_ (fun h => absurd h (lt_irrefl n)) le_rfl
  intro i hi
  calc U.getD i 0 ≤ U.getD (n + p) 0 :=
        getD_mono_of_sorted hs (by omega) (by omega)
    _ = 1 := htop

theorem getD_mem_of_lt (l : List Pt) (i : ℕ) (h : i < l.length) :
    l.getD i [] ∈ l := by
  rw [List.getD_eq_getElem _ _ h]
  exact List.getElem_mem h

theorem curvept_core_clamped_zero (c : Curve)
    (hn : c.degree + 1 ≤ c.ctrlpts.length)
    (hfirst : ∀ i ≤ c.degree, c.knotvector.getD i 0 = 0)
    (hppos : 0 < c.knotvector.getD (c.degree + 1) 0)
    (hdim : ∀ pt ∈ c.ctrlpts, pt.length = c.dimension) :
    c.curvept_core 0 = c.ctrlpts.getD 0 [] := by
  unfold Curve.curvept_core
  have hspan : find_span c.degree c.knotvector c.ctrlpts.length 0 = c.degree :=
    find_span_clamped_zero _ _ _ hfirst hppos hn
  have hbasis : basis_functions c.degree c.knotvector c.degree 0 =
      1 :: List.replicate c.degree 0 :=
    basis_clamped_at_zero _ _ hfirst (ne_of_gt hppos) c.degree le_rfl
  simp only [hspan, hbasis, Nat.sub_self, Nat.zero_add]
  rw [List.range_succ_eq_map, List.foldl_cons]
  have hmem0 : c.ctrlpts.getD 0 [] ∈ c.ctrlpts := getD_mem_of_lt _ _ (by omega)
  have hstep : List.zipWith
      (fun a b => a + (1 :: List.replicate c.degree (0 : ℚ)).getD 0 0 * b)
      (List.replicate c.dimension 0) (c.ctrlpts.getD 0 []) = c.ctrlpts.getD 0 [] := by
    simp only [List.getD_cons_zero]
    exact zipWith_add_one_mul _ _ (hdim _ hmem0)
  rw [hstep]
  apply foldl_fixed
  intro x hx
  obtain ⟨i, hi, rfl⟩ := List.mem_map.mp hx
  rw [List.mem_range] at hi
  have hb0 : (1 :: List.replicate c.degree (0 : ℚ)).getD (Nat.succ i) 0 = 0 := by
    rw [List.getD_cons_succ]
    exact getD_replicate_zero _ _
  rw [hb0]
  exact zipWith_add_zero_mul _ _ (by
    rw [hdim _ hmem0,
      hdim _ (getD_mem_of_lt _ (Nat.succ i) (by omega))])

theorem curvept_core_clamped_one (c : Curve)
    (hn : c.degree + 1 ≤ c.ctrlpts.length)
    (hs : c.knotvector.Sorted (· ≤ ·))
    (hlen : c.knotvector.length = c.ctrlpts.length + c.degree + 1)
    (hlast : ∀ i, c.ctrlpts.length ≤ i → i ≤ c.ctrlpts.length + c.degree →
      c.knotvector.getD i 0 = 1)
    (hlast1 : c.knotvector.getD (c.ctrlpts.length - 1) 0 ≠ 1)
    (hdim : ∀ pt ∈ c.ctrlpts, pt.length = c.dimension) :
    c.curvept_core 1 = c.ctrlpts.getD (c.ctrlpts.length - 1) [] := by
  unfold Curve.curvept_core
  have hspan : find_span c.degree c.knotvector c.ctrlpts.length 1 =
      c.ctrlpts.length - 1 :=
    find_span_clamped_one _ _ _ hs hlen (hlast _ (by omega) (by omega))
  have hbasis : basis_functions c.degree c.knotvector (c.ctrlpts.length - 1) 1 =
      List.replicate c.degree 0 ++ [1] :=
    basis_clamped_at_one _ _ _ (by omega) hlast hlast1 c.degree le_rfl
  simp only [hspan, hbasis]
  rw [List.range_succ, List.foldl_append, List.foldl_cons, List.foldl_nil]
  have hinner : (List.range c.degree).foldl
      (fun cpt i => List.zipWith
        (fun a b => a + (List.replicate c.degree (0 : ℚ) ++ [1]).getD i 0 * b) cpt
        (c.ctrlpts.getD (c.ctrlpts.length - 1 - c.degree + i) []))
      (List.replicate c.dimension 0) = List.replicate c.dimension 0 := by
    apply foldl_fixed
    intro x hx
    rw [List.mem_range] at hx
    have hb : (List.replicate c.degree (0 : ℚ) ++ [1]).getD x 0 = 0 := by
      rw [List.getD_append _ _ _ _ (by simpa using hx)]
      exact getD_replicate_zero _ _
    rw [hb]
    apply zipWith_add_zero_mul
    rw [List.length_replicate,
      hdim _ (getD_mem_of_lt _ (c.ctrlpts.length - 1 - c.degree + x) (by omega))]
  rw [hinner]
  have hb1 : (List.replicate c.degree (0 : ℚ) ++ [1]).getD c.degree 0 = 1 := by
    rw [List.getD_append_right _ _ _ _ (by simp)]
    simp
  rw [hb1, show c.ctrlpts.length - 1 - c.degree + c.degree = c.ctrlpts.length - 1
    from by omega]
  exact zipWith_add_one_mul _ _
    (hdim _ (getD_mem_of_lt _ (c.ctrlpts.length - 1) (by omega)))

/-- C8: endpoint interpolation for clamped knot vectors, together with the spec's
concrete scenario.  For every curve whose (sorted, right-length) knot vector starts
with `degree+1` zeros and ends with `degree+1` ones (exactly — the neighbours are
strictly inside), `curvept 0` is the first control point and `curvept 1` the last;
and on the concrete degree-2 fixture `curvept 0 = (0,0)` and `curvept 1 = (4,0)`. -/
theorem C8_endpoint_interpolation (c : Curve)
    (hp : 1 ≤ c.degree)
    (hn : c.degree + 1 ≤ c.ctrlpts.length)
    (hs : c.knotvector.Sorted (· ≤ ·))
    (hlen : c.knotvector.length = c.ctrlpts.length + c.degree + 1)
    (hfirst : ∀ i ≤ c.degree, c.knotvector.getD i 0 = 0)
    (hppos : 0 < c.knotvector.getD (c.degree + 1) 0)
    (hlast : ∀ i, c.ctrlpts.length ≤ i → i ≤ c.ctrlpts.length + c.degree →
      c.knotvector.getD i 0 = 1)
    (hlast1 : c.knotvector.getD (c.ctrlpts.length - 1) 0 ≠ 1)
    (hdim : ∀ pt ∈ c.ctrlpts, pt.length = c.dimension) :
    c.curvept 0 = .ok (c.ctrlpts.getD 0 []) ∧
    c.curvept 1 = .ok (c.ctrlpts.getD (c.ctrlpts.length - 1) []) ∧
    curveC8.curvept 0 = .ok [0, 0] ∧
    curveC8.curvept 1 = .ok [4, 0] := by
  have h2 : ¬ c.ctrlpts.isEmpty = true := by
    intro h
    rw [List.isEmpty_iff] at h
    rw [h] at hn
    simp at hn
  have h3 : ¬ c.knotvector.isEmpty = true := by
    intro h
    rw [List.isEmpty_iff] at h
    rw [h] at hlen
    simp at hlen
  have hvars : c.varsOk = true := by
    unfold Curve.varsOk
    simp only [Bool.and_eq_true, bne_iff_ne, Bool.not_eq_true', ne_eq]
    refine ⟨⟨by omega, by simpa using h2⟩, by simpa using h3⟩
  refine ⟨?_, ?_, by decide, by decide⟩
  · unfold Curve.curvept
    rw [hvars]
    rw [show check_uv (some 0) none = true from by decide]
    simp only [Bool.not_true, Bool.false_eq_true, if_false]
    exact congrArg Except.ok (curvept_core_clamped_zero c hn hfirst hppos hdim)
  · unfold Curve.curvept
    rw [hvars]
    rw [show check_uv (some 1) none = true from by decide]
    simp only [Bool.not_true, Bool.false_eq_true, if_false]
    exact congrArg Except.ok
      (curvept_core_clamped_one c hn hs hlen hlast hlast1 hdim)

/-- Witness for C8 at the concrete fixture. -/
theorem C8_endpoint_interpolation_witness :
    curveC8.curvept 0 = .ok [0, 0] ∧ curveC8.curvept 1 = .ok [4, 0] := by
  have h := C8_endpoint_interpolation curveC8 (by decide) (by decide) (by decide)
    (by decide) (by decide) (by decide) (by decide) (by decide) (by decide)
  exact ⟨h.2.2.1, h.2.2.2⟩

/-- C9: for orders strictly above the degree, both derivative algorithms return a
list of length `order + 1` whose entries at indices `degree < k ≤ order` are
exactly the zero vector of the curve dimension. -/
theorem C9_high_order_derivatives_zero (c : Curve) (u : ℚ) (order : ℕ)
    (hv : c.varsOk = true) (h0 : 0 ≤ u) (h1 : u ≤ 1) (ho : c.degree < order) :
    (∀ CK, c.derivatives u order = .ok CK →
      CK.length = order + 1 ∧
      ∀ k, c.degree < k → k ≤ order → CK.getD k [] = List.replicate c.dimension 0) ∧
    (∀ CK, c.derivatives2 u order = .ok CK →
      CK.length = order + 1 ∧
      ∀ k, c.degree < k → k ≤ order → CK.getD k [] = List.replicate c.dimension 0) ∧
    (c.derivatives u order).isOk = true ∧
    (c.derivatives2 u order).isOk = true := by
  unfold Curve.derivatives Curve.derivatives2
  rw [hv, show check_uv (some u) none = true from by simp [check_uv, h0, h1],
    show decide (0 ≤ u ∧ u ≤ 1) = true from by simp [h0, h1]]
  simp only [Bool.not_true, Bool.false_eq_true, if_false]
  refine ⟨?_, ?_, rfl, rfl⟩
  · intro CK hCK
    rw [Except.ok.injEq] at hCK
    rw [← hCK]
    refine ⟨by simp, ?_⟩
    intro k hk1 hk2
    rw [List.getD_eq_getElem?_getD, List.getElem?_map,
      List.getElem?_range (by omega : k < order + 1)]
    simp only [Option.map_some', Option.getD_some]
    rw [if_neg (by omega : ¬ k ≤ min c.degree order)]
  · intro CK hCK
    rw [Except.ok.injEq] at hCK
    rw [← hCK]
    refine ⟨by simp, ?_⟩
    intro k hk1 hk2
    rw [List.getD_eq_getElem?_getD, List.getElem?_map,
      List.getElem?_range (by omega : k < order + 1)]
    simp only [Option.map_some', Option.getD_some]
    rw [if_neg (by omega : ¬ k ≤ min c.degree order)]

/-- Witness for C9 at the concrete fixture, order 4 on a degree-2 curve. -/
theorem C9_high_order_derivatives_zero_witness :
    (∀ CK, curveC8.derivatives (1/4) 4 = .ok CK →
      CK.length = 5 ∧ ∀ k, 2 < k → k ≤ 4 → CK.getD k [] = [0, 0]) ∧
    (curveC8.derivatives2 (1/4) 4).isOk = true := by
  have h := C9_high_order_derivatives_zero curveC8 (1/4) 4 (by decide) (by decide)
    (by decide) (by decide)
  exact ⟨fun CK hCK => (h.1 CK hCK).imp id (fun hz k hk1 hk2 => hz k hk1 hk2),
    h.2.2.2⟩

end Geomdl
